import Mathlib

/-!
# Docket notes application: the note list, the search history and the account stores

A shallow embedding of `src/assets/js/script.js`.  Mutable module-level variables
(`notesData`, `searchHistory`) and the two browser stores are passed explicitly; an
object reference held by an event handler is the position of that object in the array.
-/

namespace Docket

/-! ## Notes: data model -/

/-- A note object, as built by `createNote` (the flag is spelled `isPined` in the source). -/
structure Note where
  id : Int
  text : String
  color : String
  date : String
  isPined : Bool
  deriving DecidableEq, Repr

/-- The `.note` element built by `renderNote`: the note object its handlers close over, the
current value of its textarea and its inline `style.display`. -/
structure NoteElem where
  noteObj : Note
  value : String
  display : String
  deriving DecidableEq, Repr

/-- The two containers, each read front to back: `#notes` and `#pinedNotes`. -/
structure View where
  notes : List NoteElem
  pinnedNotes : List NoteElem
  deriving DecidableEq, Repr

/-! ## Notes: operations -/

/-- The `.deleteBtn` click handler, on the array:
`notesData = notesData.filter((n) => n.id !== noteObj.id)`. -/
def deleteNote (notesData : List Note) (id : Int) : List Note :=
  notesData.filter (fun n => n.id != id)

/-- The `.pinBtn` click handler, on the array.  `i` is the position of the handler's `noteObj`
in `notesData`; the assignment to `noteObj.isPined` is seen through the array (`List.set`),
then the array is filtered by id and the object is put in front (`unshift`). -/
def togglePin (notesData : List Note) (i : Nat) : Option (List Note) :=
  match notesData[i]? with
  | none => none
  | some noteObj =>
    let noteObj1 : Note := { noteObj with isPined := !noteObj.isPined }
    let mutated := notesData.set i noteObj1
    let filtered := mutated.filter (fun n => n.id != noteObj1.id)
    some (noteObj1 :: filtered)

/-- The part of `renderNote` that builds and places the new element.  The element is built
by an assignment to `innerHTML` of a template that holds `noteObj.text` between the textarea
tags, unescaped; `textareaValue` stands for the HTML parser of the platform there:
`textareaValue text` is the value of the textarea so built (character references decoded, the
text cut at a closing textarea tag).  The element goes in with `prepend` on the container
chosen by `noteObj.isPined`. -/
def renderNote (textareaValue : String → String) (noteObj : Note) (v : View) : View :=
  let note : NoteElem :=
    { noteObj := noteObj, value := textareaValue noteObj.text, display := "" }
  if noteObj.isPined then
    { v with pinnedNotes := note :: v.pinnedNotes }
  else
    { v with notes := note :: v.notes }

/-- Both containers are emptied, then `notesData.forEach((obj) => renderNote(obj))`. -/
def renderAllNotes (textareaValue : String → String) (notesData : List Note) : View :=
  notesData.foldl (fun v obj => renderNote textareaValue obj v)
    { notes := [], pinnedNotes := [] }

/-- The pair of module-level note state: the array and what the page shows. -/
structure NotesState where
  notesData : List Note
  view : View
  deriving DecidableEq, Repr

/-! ## Strings -/

/-- The characters `String.prototype.trim` strips: ECMAScript WhiteSpace and LineTerminator. -/
def isTrimChar (c : Char) : Bool :=
  let n := c.toNat
  n == 0x9 || n == 0xA || n == 0xB || n == 0xC || n == 0xD || n == 0x20 || n == 0xA0 ||
    n == 0x1680 || (0x2000 ≤ n && n ≤ 0x200A) || n == 0x2028 || n == 0x2029 ||
    n == 0x202F || n == 0x205F || n == 0x3000 || n == 0xFEFF

/-- The method `String.prototype.trim`. -/
def trim (s : String) : String :=
  ⟨((s.data.dropWhile isTrimChar).reverse.dropWhile isTrimChar).reverse⟩

/-- The property `length` of a string: the number of UTF-16 code units. -/
def utf16Length (s : String) : Nat :=
  (s.data.map (fun c => if c.toNat < 0x10000 then 1 else 2)).sum

/-- Search of `q` in `s` from every start position, first to last. -/
def includesChars : List Char → List Char → Bool
  | [], q => q.isPrefixOf []
  | c :: cs, q => q.isPrefixOf (c :: cs) || includesChars cs q

/-- The method `String.prototype.includes`. -/
def includes (s q : String) : Bool :=
  includesChars s.data q.data

/-! ## Arrays -/

/-- The index `Array.prototype.slice` and `splice` start from: a negative `start` counts
from the end, and the result is clamped to `0 .. length`. -/
def relativeStart (len : Nat) (start : Int) : Nat :=
  (if start < 0 then max ((len : Int) + start) 0 else min start (len : Int)).toNat

/-- The call `xs.slice(start)`. -/
def slice {α : Type} (xs : List α) (start : Int) : List α :=
  xs.drop (relativeStart xs.length start)

/-- The array left by `xs.splice(start, deleteCount)` called without items to insert. -/
def splice {α : Type} (xs : List α) (start : Int) (deleteCount : Nat) : List α :=
  let k := relativeStart xs.length start
  let actualDeleteCount := min deleteCount (xs.length - k)
  xs.take k ++ xs.drop (k + actualDeleteCount)

/-! ## Search box and search history -/

/-- The items `renderHistory` shows, top to bottom; the position of an item is the `index`
its remove button closes over: `searchHistory.slice(-5).reverse()`. -/
def renderHistory (searchHistory : List String) : List String :=
  (slice searchHistory (-5)).reverse

/-- The remove button's click handler, on the array:
`actualIndex = searchHistory.length - 1 - index; searchHistory.splice(actualIndex, 1)`. -/
def removeBtnClick (searchHistory : List String) (index : Nat) : List String :=
  let actualIndex : Int := (searchHistory.length : Int) - 1 - (index : Int)
  splice searchHistory actualIndex 1

/-- The `keydown` handler of the search input, on the array; `value` is the content of the
input when the key is pressed. -/
def searchKeydown (key value : String) (searchHistory : List String) : List String :=
  if key = "Enter" ∧ trim value ≠ "" then
    let recent := trim value
    if !searchHistory.contains recent then searchHistory ++ [recent] else searchHistory
  else searchHistory

/-- The `clearHistoryBtn` click handler, on the array: `searchHistory = []`. -/
def clearHistoryBtnClick (_searchHistory : List String) : List String := []

/-- What a user can do to the search history. -/
inductive HistoryAction where
  | keydown (key value : String)
  | remove (index : Nat)
  | clear
  deriving DecidableEq, Repr

/-- One user action.  A remove button exists only for an item that `renderHistory` shows, and
every change of the array is followed by `renderHistory`, so the buttons match the array. -/
def historyStep (searchHistory : List String) : HistoryAction → List String
  | .keydown key value => searchKeydown key value searchHistory
  | .remove index =>
    if index < (renderHistory searchHistory).length then removeBtnClick searchHistory index
    else searchHistory
  | .clear => clearHistoryBtnClick searchHistory

/-- A sequence of user actions, first to last. -/
def historyRun (searchHistory : List String) (actions : List HistoryAction) : List String :=
  actions.foldl historyStep searchHistory

/-- The display value `filterNotes` gives one note element.  `toLowerCase` stands for
`String.prototype.toLowerCase`, the Unicode case mapping of the platform. -/
def filterDisplay (toLowerCase : String → String) (query : String) (note : NoteElem) :
    NoteElem :=
  { note with
    display := if includes (toLowerCase note.value) (toLowerCase query) then "" else "none" }

/-- The function `filterNotes`: every `.note textarea` of the document gets its `.note`
element's `style.display` set. -/
def filterNotes (toLowerCase : String → String) (query : String) (s : NotesState) :
    NotesState :=
  { s with
    view :=
      { notes := s.view.notes.map (filterDisplay toLowerCase query)
        pinnedNotes := s.view.pinnedNotes.map (filterDisplay toLowerCase query) } }

/-- A note element is visible when its inline `display` is not `none`. -/
def NoteElem.visible (note : NoteElem) : Bool :=
  note.display != "none"

/-! ## Accounts and sessions -/

/-- The object stored under `user` and `activeUser`. -/
structure Account where
  fullName : String
  email : String
  password : String
  deriving DecidableEq, Repr

/-- The values the registration handler reads from `new FormData(authForm)`. -/
structure FormData where
  fullName : String
  email : String
  password : String
  conformPassword : String
  deriving DecidableEq, Repr

/-- The stores and the parts of the page the account handlers read and write.  A store entry
is kept as the value that `JSON.parse` gives back for it. -/
structure AppState where
  localUser : Option Account
  localActiveUser : Option Account
  sessionUser : Option Account
  searchHistory : List String
  authHeading : String
  loginPageDisplay : String
  errorDisplay : String
  errorText : String
  emailInput : String
  passwordInput : String
  loginListeners : Nat
  registrationListeners : Nat
  deriving DecidableEq, Repr

def FULL_NAME_SHORT : String := "Full name must be at least 3 characters long."
def INVALID_EMAIL : String := "Please enter a valid email address."
def WEAK_PASSWORD : String := "Password must be at least 8 characters long."
def PASSWORD_MISMATCH : String := "Your passwords do not match. Please try again."
def INVALID_LOGIN : String :=
  "The email or password you entered is incorrect. Please try again."

/-- The function `showError`, up to the timer that hides the notification again. -/
def showError (message : String) (s : AppState) : AppState :=
  { s with errorDisplay := "block", errorText := message }

/-- The `submit` handler that `setupRegistration` installs.  `emailRegexTest` stands for
`emailRegex.test` of `utilities.mjs`. -/
def registrationSubmit (emailRegexTest : String → Bool) (formData : FormData)
    (s : AppState) : AppState :=
  if utf16Length formData.fullName < 3 then showError FULL_NAME_SHORT s
  else if !emailRegexTest formData.email then showError INVALID_EMAIL s
  else if utf16Length formData.password < 8 then showError WEAK_PASSWORD s
  else if formData.password != formData.conformPassword then showError PASSWORD_MISMATCH s
  else
    let userData : Account :=
      { fullName := formData.fullName, email := formData.email, password := formData.password }
    { s with
      localUser := some userData
      localActiveUser := some userData
      sessionUser := some userData
      passwordInput := ""
      loginPageDisplay := "none" }

/-- The function `setupRegistration`: heading and one more `submit` listener. -/
def setupRegistration (s : AppState) : AppState :=
  { s with authHeading := "Register", registrationListeners := s.registrationListeners + 1 }

/-- The function `setupLogin`: heading and one more `click` listener on `AuthBtn`. -/
def setupLogin (s : AppState) : AppState :=
  { s with authHeading := "LogIn", loginListeners := s.loginListeners + 1 }

/-- One run of the `click` listener that `setupLogin` installs on `AuthBtn`. -/
def authBtnHandler (s : AppState) : AppState :=
  let email := s.emailInput
  let password := s.passwordInput
  match s.localUser with
  | none => showError INVALID_LOGIN s
  | some storedUser =>
    if email != storedUser.email || password != storedUser.password then
      showError INVALID_LOGIN s
    else
      { s with
        emailInput := ""
        passwordInput := ""
        sessionUser := some storedUser
        localActiveUser := some storedUser
        loginPageDisplay := "none" }

/-- The listener run `n` times in a row. -/
def runAuthBtnListeners : Nat → AppState → AppState
  | 0, s => s
  | n + 1, s => runAuthBtnListeners n (authBtnHandler s)

/-- A click on `AuthBtn`: every installed listener runs, in the order of installation. -/
def authBtnClick (s : AppState) : AppState :=
  runAuthBtnListeners s.loginListeners s

/-- The `logoutBtn` click handler. -/
def logoutBtnClick (s : AppState) : AppState :=
  let s1 := { s with sessionUser := none, localActiveUser := none }
  let s2 := setupLogin s1
  { s2 with loginPageDisplay := "flex" }

/-- The `saveProfileBtn` click handler; the arguments are the contents of the popup. -/
def saveProfileBtnClick (popupUserName popupUserEmail popupUserPassword : String)
    (s : AppState) : AppState :=
  let updatedUser : Account :=
    { fullName := trim popupUserName
      email := trim popupUserEmail
      password := trim popupUserPassword }
  { s with localUser := some updatedUser }

/-- The function `initAuth`, run on every load of the page. -/
def initAuth (s : AppState) : AppState :=
  match s.localUser with
  | none => { setupRegistration s with loginPageDisplay := "flex" }
  | some _ =>
    if s.localActiveUser.isNone && s.sessionUser.isNone then
      { setupLogin s with loginPageDisplay := "flex" }
    else
      { s with loginPageDisplay := "none" }

/-- A load of the page over the given stores: a fresh document, then `initAuth`. -/
def pageLoad (localUser localActiveUser sessionUser : Option Account)
    (searchHistory : List String) : AppState :=
  initAuth
    { localUser := localUser
      localActiveUser := localActiveUser
      sessionUser := sessionUser
      searchHistory := searchHistory
      authHeading := ""
      loginPageDisplay := ""
      errorDisplay := ""
      errorText := ""
      emailInput := ""
      passwordInput := ""
      loginListeners := 0
      registrationListeners := 0 }

/-- The `deleteAccountBtn` click handler; `confirmed` is the answer to `confirm(...)`.  The
handler ends in `location.reload()`. -/
def deleteAccountBtnClick (confirmed : Bool) (s : AppState) : AppState :=
  if confirmed then
    pageLoad none s.localActiveUser s.sessionUser []
  else s

/-- What a user can do to the account and the session. -/
inductive AccountAction where
  | register (formData : FormData)
  | login (email password : String)
  | logout
  | saveProfile (popupUserName popupUserEmail popupUserPassword : String)
  | deleteAccount (confirmed : Bool)
  deriving DecidableEq, Repr

/-- One user action.  A login is the two fields filled in and a click on `AuthBtn`. -/
def accountStep (emailRegexTest : String → Bool) (s : AppState) : AccountAction → AppState
  | .register formData => registrationSubmit emailRegexTest formData s
  | .login email password =>
    authBtnClick { s with emailInput := email, passwordInput := password }
  | .logout => logoutBtnClick s
  | .saveProfile n e p => saveProfileBtnClick n e p s
  | .deleteAccount confirmed => deleteAccountBtnClick confirmed s

/-- A sequence of user actions, first to last. -/
def accountRun (emailRegexTest : String → Bool) (s : AppState)
    (actions : List AccountAction) : AppState :=
  actions.foldl (accountStep emailRegexTest) s

/-- The state of the first load ever: nothing in either store. -/
def emptyStores : AppState :=
  pageLoad none none none []

/-- The session invariant: a session flag in either store comes with an Account. -/
def SessionInv (s : AppState) : Prop :=
  (s.sessionUser.isSome ∨ s.localActiveUser.isSome) → s.localUser.isSome

instance (s : AppState) : Decidable (SessionInv s) := by
  unfold SessionInv; infer_instance

/-- The state of a finished login with the account `acc`. -/
def LoggedIn (acc : Account) (s : AppState) : Prop :=
  s.localUser = some acc ∧ s.sessionUser = some acc ∧ s.localActiveUser = some acc ∧
    s.loginPageDisplay = "none"

/-! ## Sample data -/

def noteA : Note :=
  { id := 1, text := "Buy milk", color := "yellow", date := "2025-09-02", isPined := false }

def noteB : Note :=
  { id := 2, text := "Team Meeting", color := "blue", date := "2025-09-03", isPined := true }

def noteC : Note :=
  { id := 3, text := "Call Ann", color := "green", date := "2025-09-04", isPined := true }

def noteT : Note :=
  { id := 4, text := "Tom &amp; Jerry", color := "pink", date := "2025-09-05",
    isPined := false }

def annLee : Account :=
  { fullName := "Ann Lee", email := "ann@x.com", password := "secret123" }

def annForm : FormData :=
  { fullName := "Ann Lee", email := "ann@x.com", password := "secret123",
    conformPassword := "secret123" }

/-- A stand-in for `toLowerCase` on ASCII text. -/
def asciiToLowerCase (s : String) : String :=
  ⟨s.data.map Char.toLower⟩

/-- A stand-in for `emailRegex.test`: some text, an `@`, some text. -/
def simpleEmailTest (s : String) : Bool :=
  match s.data.span (fun c => c != '@') with
  | (user, '@' :: host) => !user.isEmpty && !host.isEmpty
  | _ => false

/-- The state after registering Ann Lee and logging out, with the right password typed. -/
def annLoggedOut : AppState :=
  { logoutBtnClick (registrationSubmit simpleEmailTest annForm emptyStores) with
    emailInput := "ann@x.com", passwordInput := "secret123" }

/-- The character reference `&amp;` decoded, everything else kept. -/
def decodeAmpChars : List Char → List Char
  | '&' :: 'a' :: 'm' :: 'p' :: ';' :: rest => '&' :: decodeAmpChars rest
  | c :: rest => c :: decodeAmpChars rest
  | [] => []

/-- A stand-in for the HTML parser on text whose only markup is `&amp;`. -/
def ampTextareaValue (s : String) : String :=
  ⟨decodeAmpChars s.data⟩

/-- Two notes, rendered. -/
def sampleNotesState : NotesState :=
  { notesData := [noteA, noteB], view := renderAllNotes ampTextareaValue [noteA, noteB] }

/-! ## Notes: lemmas -/

theorem filter_id_ne_self_of_forall {l : List Note} {k : Int}
    (h : ∀ n ∈ l, n.id ≠ k) : l.filter (fun n => n.id != k) = l := by
  rw [List.filter_eq_self]
  intro n hn
  simpa using h n hn

theorem filter_id_eq_eraseIdx (l : List Note) (i : Nat) (n : Note)
    (hnd : (l.map Note.id).Nodup) (hi : l[i]? = some n) :
    l.filter (fun m => m.id != n.id) = l.eraseIdx i := by
  induction l generalizing i with
  | nil => simp
  | cons a t ih =>
    rw [List.map_cons, List.nodup_cons] at hnd
    cases i with
    | zero =>
      simp only [List.getElem?_cons_zero, Option.some.injEq] at hi
      subst hi
      have ht : ∀ m ∈ t, m.id ≠ a.id := by
        intro m hm heq
        exact hnd.1 (heq ▸ List.mem_map_of_mem Note.id hm)
      simp [List.filter_cons, filter_id_ne_self_of_forall ht]
    | succ k =>
      simp only [List.getElem?_cons_succ] at hi
      have hmem : n ∈ t := List.getElem?_mem hi
      have hne : a.id ≠ n.id := by
        intro heq
        exact hnd.1 (heq ▸ List.mem_map_of_mem Note.id hmem)
      simp [List.filter_cons, hne, ih k hnd.2 hi]

theorem split_at_getElem? {α : Type} (l : List α) (i : Nat) (x : α) (hi : l[i]? = some x) :
    ∃ l1 l2, l = l1 ++ x :: l2 ∧ l1.length = i ∧ l.eraseIdx i = l1 ++ l2 := by
  induction l generalizing i with
  | nil => simp at hi
  | cons a t ih =>
    cases i with
    | zero =>
      simp only [List.getElem?_cons_zero, Option.some.injEq] at hi
      exact ⟨[], t, by simp [hi], rfl, by simp⟩
    | succ k =>
      simp only [List.getElem?_cons_succ] at hi
      obtain ⟨l1, l2, h1, h2, h3⟩ := ih k hi
      exact ⟨a :: l1, l2, by simp [h1], by simp [h2], by simp [h3]⟩

theorem eraseIdx_set_same {α : Type} (l : List α) (i : Nat) (x : α) :
    (l.set i x).eraseIdx i = l.eraseIdx i := by
  induction l generalizing i with
  | nil => simp
  | cons a t ih =>
    cases i with
    | zero => simp
    | succ k => simp [ih k]

theorem togglePin_eq (notesData : List Note) (i : Nat) (N : Note)
    (hnd : (notesData.map Note.id).Nodup) (hi : notesData[i]? = some N) :
    togglePin notesData i
      = some ({ N with isPined := !N.isPined } :: notesData.eraseIdx i) := by
  obtain ⟨hlt, hN⟩ := List.getElem?_eq_some.mp hi
  have hids : ((notesData.set i { N with isPined := !N.isPined }).map Note.id).Nodup := by
    have : (notesData.set i { N with isPined := !N.isPined }).map Note.id
        = notesData.map Note.id := by
      rw [List.map_set]
      apply List.ext_getElem?
      intro j
      by_cases hj : i = j
      · subst hj
        simp [List.getElem?_set, hlt, hN]
      · simp [List.getElem?_set, hj]
    rw [this]
    exact hnd
  have hget : (notesData.set i { N with isPined := !N.isPined })[i]?
      = some { N with isPined := !N.isPined } := by
    simp [List.getElem?_set, hlt]
  have hfil := filter_id_eq_eraseIdx _ i _ hids hget
  simp only [togglePin, hi]
  rw [hfil, eraseIdx_set_same]

theorem ids_nodup_front {l1 l2 : List Note} {N : Note}
    (hnd : ((l1 ++ N :: l2).map Note.id).Nodup) :
    ((N :: (l1 ++ l2)).map Note.id).Nodup := by
  have hperm : (l1 ++ N :: l2).Perm (N :: (l1 ++ l2)) := List.perm_middle
  exact (hperm.map Note.id).nodup_iff.mp hnd

theorem not_mem_rest_of_ids_nodup {l1 l2 : List Note} {N : Note}
    (hnd : ((l1 ++ N :: l2).map Note.id).Nodup) : ∀ m ∈ l1 ++ l2, m.id ≠ N.id := by
  have h := ids_nodup_front hnd
  rw [List.map_cons, List.nodup_cons] at h
  intro m hm heq
  exact h.1 (heq ▸ List.mem_map_of_mem Note.id hm)

theorem renderAll_foldl_pinned (tv : String → String) (l : List Note) (v : View) :
    ((l.foldl (fun v obj => renderNote tv obj v) v).pinnedNotes.map NoteElem.noteObj)
      = (l.filter (fun n => n.isPined)).reverse ++ v.pinnedNotes.map NoteElem.noteObj := by
  induction l generalizing v with
  | nil => simp
  | cons a t ih =>
    rw [List.foldl_cons, ih]
    by_cases ha : a.isPined = true
    · simp [renderNote, ha, List.filter_cons]
    · simp [renderNote, ha, List.filter_cons]

theorem renderAll_foldl_notes (tv : String → String) (l : List Note) (v : View) :
    ((l.foldl (fun v obj => renderNote tv obj v) v).notes.map NoteElem.noteObj)
      = (l.filter (fun n => !n.isPined)).reverse ++ v.notes.map NoteElem.noteObj := by
  induction l generalizing v with
  | nil => simp
  | cons a t ih =>
    rw [List.foldl_cons, ih]
    by_cases ha : a.isPined = true
    · simp [renderNote, ha, List.filter_cons]
    · simp [renderNote, ha, List.filter_cons]

/-- What `renderAllNotes` builds: each container holds, front to back, the notes of its kind
in the reverse of their order in the list. -/
theorem renderAllNotes_buckets_reversed (tv : String → String) (notesData : List Note) :
    (renderAllNotes tv notesData).pinnedNotes.map NoteElem.noteObj
        = (notesData.filter (fun n => n.isPined)).reverse ∧
      (renderAllNotes tv notesData).notes.map NoteElem.noteObj
        = (notesData.filter (fun n => !n.isPined)).reverse := by
  have hp := renderAll_foldl_pinned tv notesData { notes := [], pinnedNotes := [] }
  have hn := renderAll_foldl_notes tv notesData { notes := [], pinnedNotes := [] }
  simp only [List.map_nil, List.append_nil] at hp hn
  exact ⟨hp, hn⟩

/-! ## Notes: the claims -/

/-- C1: in a note list with pairwise distinct ids, the pin action on the note `N` at position
`i` yields `N` with `isPined` negated and every other field kept, at the front, followed by
the other notes unchanged and in their original order; the length of the list is kept. -/
theorem togglePin_moves_note_to_front (notesData : List Note) (i : Nat) (N : Note)
    (hnd : (notesData.map Note.id).Nodup) (hi : notesData[i]? = some N) :
    ∃ l1 l2, notesData = l1 ++ N :: l2 ∧ l1.length = i ∧
      togglePin notesData i
        = some ({ id := N.id, text := N.text, color := N.color, date := N.date,
                  isPined := !N.isPined } :: (l1 ++ l2)) ∧
      ∀ r, togglePin notesData i = some r → r.length = notesData.length := by
  obtain ⟨l1, l2, h1, h2, h3⟩ := split_at_getElem? notesData i N hi
  have heq := togglePin_eq notesData i N hnd hi
  rw [h3] at heq
  refine ⟨l1, l2, h1, h2, heq, ?_⟩
  intro r hr
  rw [heq] at hr
  cases hr
  rw [h1]
  simp only [List.length_cons, List.length_append]
  omega

theorem togglePin_moves_note_to_front_witness :
    ∃ l1 l2, [noteA, noteB, noteC] = l1 ++ noteB :: l2 ∧ l1.length = 1 ∧
      togglePin [noteA, noteB, noteC] 1
        = some ({ id := noteB.id, text := noteB.text, color := noteB.color,
                  date := noteB.date, isPined := !noteB.isPined } :: (l1 ++ l2)) ∧
      ∀ r, togglePin [noteA, noteB, noteC] 1 = some r →
        r.length = [noteA, noteB, noteC].length :=
  togglePin_moves_note_to_front [noteA, noteB, noteC] 1 noteB (by decide) rfl

/-- C2, as stated, fails: `noteB` sits at index 1 of a two-note list with distinct ids; after
two pin actions on it the list is `[noteB, noteA]`, where `noteB` is at index 0, not 1. -/
theorem togglePin_twice_not_original_index :
    ([noteA, noteB].map Note.id).Nodup ∧
      [noteA, noteB][1]? = some noteB ∧
      (togglePin [noteA, noteB] 1).bind (fun l => togglePin l 0) = some [noteB, noteA] ∧
      [noteB, noteA][1]? ≠ some noteB ∧
      [noteB, noteA][0]? = some noteB := by
  decide

/-- C2, amended: in a note list with pairwise distinct ids, two pin actions in a row on the
note `N` at position `i` give back `N` itself (so its original `isPined`), at the front of the
list, followed by the other notes in their original order; `N` is at its original index `i`
again exactly when `i = 0`. -/
theorem togglePin_twice_front (notesData : List Note) (i : Nat) (N : Note)
    (hnd : (notesData.map Note.id).Nodup) (hi : notesData[i]? = some N) :
    ∃ r1, togglePin notesData i = some r1 ∧
      togglePin r1 0 = some (N :: notesData.eraseIdx i) ∧
      ((N :: notesData.eraseIdx i)[i]? = some N ↔ i = 0) := by
  obtain ⟨l1, l2, h1, _, h3⟩ := split_at_getElem? notesData i N hi
  have hnd1 : ((l1 ++ N :: l2).map Note.id).Nodup := h1 ▸ hnd
  have hfront := ids_nodup_front hnd1
  have hrest := not_mem_rest_of_ids_nodup hnd1
  refine ⟨_, togglePin_eq notesData i N hnd hi, ?_, ?_⟩
  · have h := togglePin_eq
      ({ id := N.id, text := N.text, color := N.color, date := N.date,
         isPined := !N.isPined } :: notesData.eraseIdx i) 0
      { id := N.id, text := N.text, color := N.color, date := N.date, isPined := !N.isPined }
      (by rw [h3]; simpa using hfront) (by simp)
    simpa using h
  · constructor
    · intro h
      cases i with
      | zero => rfl
      | succ k =>
        exfalso
        simp only [List.getElem?_cons_succ] at h
        have hmem : N ∈ notesData.eraseIdx (k + 1) := List.getElem?_mem h
        rw [h3] at hmem
        exact hrest N hmem rfl
    · intro h
      subst h
      simp

theorem togglePin_twice_front_witness :
    ∃ r1, togglePin [noteA, noteB, noteC] 2 = some r1 ∧
      togglePin r1 0 = some (noteC :: [noteA, noteB, noteC].eraseIdx 2) ∧
      ((noteC :: [noteA, noteB, noteC].eraseIdx 2)[2]? = some noteC ↔ 2 = 0) :=
  togglePin_twice_front [noteA, noteB, noteC] 2 noteC (by decide) rfl

/-- C3: in a note list with pairwise distinct ids, deleting by the id of a note `N` of the
list leaves the notes before `N` followed by the notes after `N`, one note fewer, none of them
with that id; deleting by an id that no note has leaves the list as it is. -/
theorem deleteNote_spec (notesData : List Note) (id : Int)
    (hnd : (notesData.map Note.id).Nodup) :
    (∀ N ∈ notesData, N.id = id →
      ∃ l1 l2, notesData = l1 ++ N :: l2 ∧ deleteNote notesData id = l1 ++ l2 ∧
        (deleteNote notesData id).length + 1 = notesData.length ∧
        ∀ m ∈ deleteNote notesData id, m.id ≠ id) ∧
    ((∀ N ∈ notesData, N.id ≠ id) → deleteNote notesData id = notesData) := by
  constructor
  · intro N hN hid
    obtain ⟨i, hi⟩ := List.mem_iff_getElem?.mp hN
    obtain ⟨l1, l2, h1, _, h3⟩ := split_at_getElem? notesData i N hi
    have hdel : deleteNote notesData id = l1 ++ l2 := by
      rw [← h3, ← hid]
      exact filter_id_eq_eraseIdx notesData i N hnd hi
    refine ⟨l1, l2, h1, hdel, ?_, ?_⟩
    · rw [hdel, h1]
      simp
      omega
    · intro m hm
      simp only [deleteNote, List.mem_filter] at hm
      simpa using hm.2
  · intro h
    exact filter_id_ne_self_of_forall h

theorem deleteNote_spec_witness :
    (∃ l1 l2, [noteA, noteB, noteC] = l1 ++ noteB :: l2 ∧
        deleteNote [noteA, noteB, noteC] 2 = l1 ++ l2 ∧
        (deleteNote [noteA, noteB, noteC] 2).length + 1 = [noteA, noteB, noteC].length ∧
        ∀ m ∈ deleteNote [noteA, noteB, noteC] 2, m.id ≠ 2) ∧
      deleteNote [noteA, noteB, noteC] 7 = [noteA, noteB, noteC] :=
  ⟨(deleteNote_spec [noteA, noteB, noteC] 2 (by decide)).1 noteB (by decide) rfl,
    (deleteNote_spec [noteA, noteB, noteC] 7 (by decide)).2 (by decide)⟩

/-- C8, at the failing input: `noteB` and `noteC` are both pinned; for the list
`[noteC, noteB]` the pinned container reads `[noteB, noteC]` front to back, which is not the
list's pinned sub-sequence `[noteC, noteB]`, and the note at the front of the list is not
shown first.  The same through the pin handler: pinning `noteA` in `[noteB, noteA]` moves it
to the front of the list, and the pinned container then shows it last, after `noteB`. -/
theorem renderAllNotes_not_list_order (textareaValue : String → String) :
    (renderAllNotes textareaValue [noteC, noteB]).pinnedNotes.map NoteElem.noteObj
        = [noteB, noteC] ∧
      [noteC, noteB].filter (fun n => n.isPined) = [noteC, noteB] ∧
      (renderAllNotes textareaValue [noteC, noteB]).pinnedNotes.map NoteElem.noteObj
        ≠ [noteC, noteB].filter (fun n => n.isPined) ∧
      ((renderAllNotes textareaValue [noteC, noteB]).pinnedNotes.map NoteElem.noteObj).head?
        ≠ some noteC ∧
      togglePin [noteB, noteA] 1 = some [{ noteA with isPined := true }, noteB] ∧
      (renderAllNotes textareaValue [{ noteA with isPined := true }, noteB]).pinnedNotes.map
        NoteElem.noteObj = [noteB, { noteA with isPined := true }] := by
  have h1 : (renderAllNotes textareaValue [noteC, noteB]).pinnedNotes.map NoteElem.noteObj
      = [noteB, noteC] := rfl
  have h2 : (renderAllNotes textareaValue [{ noteA with isPined := true }, noteB]).pinnedNotes.map
      NoteElem.noteObj = [noteB, { noteA with isPined := true }] := rfl
  rw [h1, h2]
  decide

/-! ## Search history: lemmas -/

theorem relativeStart_neg_five (len : Nat) : relativeStart len (-5) = len - 5 := by
  unfold relativeStart
  simp only [show ((-5 : Int) < 0) from by decide, if_true]
  omega

theorem relativeStart_of_lt (len k : Nat) (hk : k < len) :
    relativeStart len ((len : Int) - 1 - ((len - 1 - k : Nat) : Int)) = k := by
  unfold relativeStart
  split <;> omega

theorem renderHistory_eq_drop (h : List String) :
    renderHistory h = (h.drop (h.length - 5)).reverse := by
  simp [renderHistory, slice, relativeStart_neg_five]

theorem renderHistory_eq_take (h : List String) : renderHistory h = h.reverse.take 5 := by
  rw [renderHistory_eq_drop, List.take_reverse]

theorem renderHistory_length (h : List String) :
    (renderHistory h).length = min 5 h.length := by
  rw [renderHistory_eq_take]
  simp

theorem renderHistory_getElem? (h : List String) (i : Nat) (hi : i < min 5 h.length) :
    (renderHistory h)[i]? = h[h.length - 1 - i]? := by
  have h5 : i < 5 := lt_of_lt_of_le hi (min_le_left _ _)
  have hl : i < h.length := lt_of_lt_of_le hi (min_le_right _ _)
  rw [renderHistory_eq_take, List.getElem?_take_of_lt h5, List.getElem?_reverse hl]

theorem removeBtnClick_eq_eraseIdx (h : List String) (i : Nat) (hi : i < h.length) :
    removeBtnClick h i = h.eraseIdx (h.length - 1 - i) := by
  have hk : h.length - 1 - i < h.length := by omega
  have hrel : relativeStart h.length ((h.length : Int) - 1 - (i : Int)) = h.length - 1 - i := by
    have := relativeStart_of_lt h.length (h.length - 1 - i) hk
    have hcast : h.length - 1 - (h.length - 1 - i) = i := by omega
    rw [hcast] at this
    exact this
  simp only [removeBtnClick, splice, hrel]
  have hmin : min 1 (h.length - (h.length - 1 - i)) = 1 := by omega
  rw [hmin, List.eraseIdx_eq_take_drop_succ]

theorem splice_sublist {α : Type} (xs : List α) (start : Int) (deleteCount : Nat) :
    (splice xs start deleteCount).Sublist xs := by
  simp only [splice]
  generalize relativeStart xs.length start = k
  generalize min deleteCount (xs.length - k) = d
  have hx : xs.take k ++ xs.drop k = xs := List.take_append_drop k xs
  have hd : (xs.drop (k + d)).Sublist (xs.drop k) :=
    List.drop_sublist_drop_left xs (Nat.le_add_right k d)
  have := List.Sublist.append (List.Sublist.refl (xs.take k)) hd
  rw [hx] at this
  exact this

theorem searchKeydown_nodup (key value : String) (h : List String) (hnd : h.Nodup) :
    (searchKeydown key value h).Nodup := by
  unfold searchKeydown
  split
  · by_cases hmem : trim value ∈ h
    · simp [hmem, hnd]
    · have hgoal : (if (!h.contains (trim value)) = true then h ++ [trim value] else h)
          = h ++ [trim value] := by simp [hmem]
      rw [hgoal, List.nodup_append]
      exact ⟨hnd, List.nodup_singleton _, by simpa using hmem⟩
  · exact hnd

theorem historyStep_nodup (h : List String) (a : HistoryAction) (hnd : h.Nodup) :
    (historyStep h a).Nodup := by
  cases a with
  | keydown key value => exact searchKeydown_nodup key value h hnd
  | remove index =>
    simp only [historyStep]
    split
    · exact List.Nodup.sublist (splice_sublist _ _ _) hnd
    · exact hnd
  | clear => exact List.nodup_nil

theorem historyRun_nodup (actions : List HistoryAction) (h : List String) (hnd : h.Nodup) :
    (historyRun h actions).Nodup := by
  induction actions generalizing h with
  | nil => exact hnd
  | cons a rest ih => exact ih (historyStep h a) (historyStep_nodup h a hnd)

theorem includesChars_iff_sublist_run (s q : List Char) : includesChars s q = true ↔ q <:+: s := by
  induction s with
  | nil => simp [includesChars]
  | cons c cs ih =>
    rw [includesChars, Bool.or_eq_true, ih, List.isPrefixOf_iff_prefix, List.infix_cons_iff]

theorem includes_iff (s q : String) :
    includes s q = true ↔ ∃ pre post : String, s = pre ++ q ++ post := by
  unfold includes
  rw [includesChars_iff_sublist_run]
  constructor
  · rintro ⟨a, b, hab⟩
    refine ⟨⟨a⟩, ⟨b⟩, ?_⟩
    apply String.ext
    simp [String.data_append, hab]
  · rintro ⟨pre, post, hs⟩
    refine ⟨pre.data, post.data, ?_⟩
    rw [hs]
    simp [String.data_append]

theorem filterDisplay_visible_iff (toLowerCase : String → String) (query : String)
    (e : NoteElem) :
    (filterDisplay toLowerCase query e).visible = true
      ↔ includes (toLowerCase e.value) (toLowerCase query) = true := by
  unfold filterDisplay NoteElem.visible
  by_cases h : includes (toLowerCase e.value) (toLowerCase query) = true
  · simp [h]
  · simp [h]

theorem filterDisplay_getElem? (toLowerCase : String → String) (query : String)
    (elems : List NoteElem) (i : Nat) (e : NoteElem) (hi : elems[i]? = some e) :
    ∃ e1, (elems.map (filterDisplay toLowerCase query))[i]? = some e1 ∧
      e1.noteObj = e.noteObj ∧ e1.value = e.value ∧
      (e1.visible = true
        ↔ ∃ pre post : String, toLowerCase e.value = pre ++ toLowerCase query ++ post) := by
  refine ⟨filterDisplay toLowerCase query e, by simp [hi], rfl, rfl, ?_⟩
  rw [filterDisplay_visible_iff, includes_iff]

/-- What `filterNotes` does, in terms of the textarea values: it keeps the note array and the
number and order of the elements of both containers, the element at each position keeps its
note and its textarea value, and is visible exactly when the lower-cased query is a substring
of its lower-cased textarea value; when `toLowerCase` maps the empty string to itself, the
empty query leaves every element visible. -/
theorem filterNotes_spec (toLowerCase : String → String) (query : String) (s : NotesState) :
    (filterNotes toLowerCase query s).notesData = s.notesData ∧
      (filterNotes toLowerCase query s).view.notes.length = s.view.notes.length ∧
      (filterNotes toLowerCase query s).view.pinnedNotes.length = s.view.pinnedNotes.length ∧
      (∀ (i : Nat) (e : NoteElem), s.view.notes[i]? = some e →
        ∃ e1 : NoteElem, (filterNotes toLowerCase query s).view.notes[i]? = some e1 ∧
          e1.noteObj = e.noteObj ∧ e1.value = e.value ∧
          (e1.visible = true
            ↔ ∃ pre post : String, toLowerCase e.value = pre ++ toLowerCase query ++ post)) ∧
      (∀ (i : Nat) (e : NoteElem), s.view.pinnedNotes[i]? = some e →
        ∃ e1 : NoteElem, (filterNotes toLowerCase query s).view.pinnedNotes[i]? = some e1 ∧
          e1.noteObj = e.noteObj ∧ e1.value = e.value ∧
          (e1.visible = true
            ↔ ∃ pre post : String, toLowerCase e.value = pre ++ toLowerCase query ++ post)) ∧
      (toLowerCase "" = "" →
        ∀ e ∈ (filterNotes toLowerCase "" s).view.notes
            ++ (filterNotes toLowerCase "" s).view.pinnedNotes, e.visible = true) := by
  refine ⟨rfl, by simp [filterNotes], by simp [filterNotes], ?_, ?_, ?_⟩
  · intro i e hi
    exact filterDisplay_getElem? toLowerCase query s.view.notes i e hi
  · intro i e hi
    exact filterDisplay_getElem? toLowerCase query s.view.pinnedNotes i e hi
  · intro hempty e he
    have hvis : ∀ e0 : NoteElem, (filterDisplay toLowerCase "" e0).visible = true := by
      intro e0
      rw [filterDisplay_visible_iff, includes_iff, hempty]
      exact ⟨toLowerCase e0.value, "", by simp⟩
    simp only [filterNotes, List.mem_append, List.mem_map] at he
    rcases he with ⟨e0, _, rfl⟩ | ⟨e0, _, rfl⟩
    · exact hvis e0
    · exact hvis e0

theorem filterNotes_spec_sample :
    (filterNotes asciiToLowerCase "MEETING" sampleNotesState).notesData = [noteA, noteB] ∧
      (filterNotes asciiToLowerCase "MEETING" sampleNotesState).view.pinnedNotes.map
        NoteElem.visible = [true] ∧
      (filterNotes asciiToLowerCase "MEETING" sampleNotesState).view.notes.map
        NoteElem.visible = [false] ∧
      (∀ e ∈ (filterNotes asciiToLowerCase "" sampleNotesState).view.notes
          ++ (filterNotes asciiToLowerCase "" sampleNotesState).view.pinnedNotes,
        e.visible = true) :=
  ⟨(filterNotes_spec asciiToLowerCase "MEETING" sampleNotesState).1, by decide, by decide,
    (filterNotes_spec asciiToLowerCase "" sampleNotesState).2.2.2.2.2 (by decide)⟩

/-! ## Search history and filter: the claims -/

/-- C4: in a history without duplicates, the remove button at display index `i`, for
`i < min 5 length`, deletes exactly the entry `x` that `renderHistory` shows at position `i`,
which is the one at storage index `length - 1 - i`; the entries before and after it stay, in
their order, and `x` is no longer in the history. -/
theorem removeBtnClick_removes_shown_entry (searchHistory : List String) (i : Nat)
    (hnd : searchHistory.Nodup) (hi : i < min 5 searchHistory.length) :
    ∃ l1 x l2, searchHistory = l1 ++ x :: l2 ∧ l1.length = searchHistory.length - 1 - i ∧
      (renderHistory searchHistory)[i]? = some x ∧
      removeBtnClick searchHistory i = l1 ++ l2 ∧
      x ∉ removeBtnClick searchHistory i := by
  have hl : i < searchHistory.length := lt_of_lt_of_le hi (min_le_right _ _)
  have hk : searchHistory.length - 1 - i < searchHistory.length := by omega
  have hget : searchHistory[searchHistory.length - 1 - i]?
      = some (searchHistory[searchHistory.length - 1 - i]) := List.getElem?_eq_getElem hk
  obtain ⟨l1, l2, h1, h2, h3⟩ := split_at_getElem? searchHistory _ _ hget
  have hrm : removeBtnClick searchHistory i = l1 ++ l2 := by
    rw [removeBtnClick_eq_eraseIdx searchHistory i hl, h3]
  refine ⟨l1, _, l2, h1, h2, ?_, hrm, ?_⟩
  · rw [renderHistory_getElem? searchHistory i hi, hget]
  · rw [hrm]
    have hnd1 := hnd
    rw [h1] at hnd1
    have hperm : (l1 ++ searchHistory[searchHistory.length - 1 - i] :: l2).Perm
        (searchHistory[searchHistory.length - 1 - i] :: (l1 ++ l2)) := List.perm_middle
    exact (List.nodup_cons.mp (hperm.nodup_iff.mp hnd1)).1

theorem removeBtnClick_removes_shown_entry_witness :
    ∃ l1 x l2, ["a", "b", "c", "d", "e", "f"] = l1 ++ x :: l2 ∧
      l1.length = ["a", "b", "c", "d", "e", "f"].length - 1 - 4 ∧
      (renderHistory ["a", "b", "c", "d", "e", "f"])[4]? = some x ∧
      removeBtnClick ["a", "b", "c", "d", "e", "f"] 4 = l1 ++ l2 ∧
      x ∉ removeBtnClick ["a", "b", "c", "d", "e", "f"] 4 :=
  removeBtnClick_removes_shown_entry ["a", "b", "c", "d", "e", "f"] 4 (by decide) (by decide)

/-- C5, as stated, fails on the two "in particular" parts: the query of one blank is not
empty and not in the empty history, yet nothing is appended; the query " a" is not in the
history `["a"]`, yet nothing is appended; the query " a" is in the history `[" a"]`, yet the
history changes. -/
theorem searchKeydown_not_literal_query :
    (" " ≠ "" ∧ " " ∉ ([] : List String) ∧
        searchKeydown "Enter" " " [] ≠ [] ++ [" "] ∧ searchKeydown "Enter" " " [] = []) ∧
      (" a" ≠ "" ∧ " a" ∉ ["a"] ∧
        searchKeydown "Enter" " a" ["a"] ≠ ["a"] ++ [" a"] ∧
        searchKeydown "Enter" " a" ["a"] = ["a"]) ∧
      (" a" ∈ [" a"] ∧ searchKeydown "Enter" " a" [" a"] ≠ [" a"] ∧
        searchKeydown "Enter" " a" [" a"] = [" a", "a"]) := by
  decide

/-- C5, amended: from a history without duplicates (the empty one among them), every sequence
of key presses in the search box, removals of a shown entry and clear-all actions leaves a
history without duplicates; pressing Enter on a text whose trimmed form is already in the
history leaves the history unchanged, and pressing Enter on a text whose trimmed form is not
empty and not in the history appends the trimmed form at the end. -/
theorem searchHistory_no_duplicates (searchHistory : List String)
    (hnd : searchHistory.Nodup) :
    (∀ actions, (historyRun searchHistory actions).Nodup) ∧
      (∀ actions, (historyRun [] actions).Nodup) ∧
      (∀ value, trim value ∈ searchHistory →
        searchKeydown "Enter" value searchHistory = searchHistory) ∧
      (∀ value, trim value ≠ "" → trim value ∉ searchHistory →
        searchKeydown "Enter" value searchHistory = searchHistory ++ [trim value]) := by
  refine ⟨fun actions => historyRun_nodup actions _ hnd,
    fun actions => historyRun_nodup actions _ List.nodup_nil, ?_, ?_⟩
  · intro value hmem
    unfold searchKeydown
    split
    · simp [hmem]
    · rfl
  · intro value hne hmem
    unfold searchKeydown
    simp [hne, hmem]

theorem searchHistory_no_duplicates_witness :
    (historyRun ["a", "b"]
        [.keydown "Enter" " b ", .keydown "Enter" "c", .remove 0, .keydown "a" "d",
          .clear, .keydown "Enter" "a"]).Nodup ∧
      searchKeydown "Enter" " b " ["a", "b"] = ["a", "b"] ∧
      searchKeydown "Enter" "c " ["a", "b"] = ["a", "b"] ++ [trim "c "] :=
  ⟨(searchHistory_no_duplicates ["a", "b"] (by decide)).1 _,
    (searchHistory_no_duplicates ["a", "b"] (by decide)).2.2.1 " b " (by decide),
    (searchHistory_no_duplicates ["a", "b"] (by decide)).2.2.2 "c " (by decide) (by decide)⟩

/-- C6: the entries `renderHistory` shows are the last `min 5 length` entries of the history
in reverse order: there are `min 5 length` of them, so at most 5, the entry at display
position `i` is the one at storage index `length - 1 - i`, and the whole view is the first 5
entries of the reversed history. -/
theorem renderHistory_last_five_reversed (searchHistory : List String) :
    (renderHistory searchHistory).length = min 5 searchHistory.length ∧
      (renderHistory searchHistory).length ≤ 5 ∧
      (∀ i, i < min 5 searchHistory.length →
        (renderHistory searchHistory)[i]? = searchHistory[searchHistory.length - 1 - i]?) ∧
      renderHistory searchHistory = searchHistory.reverse.take 5 := by
  refine ⟨renderHistory_length _, ?_, renderHistory_getElem? _, renderHistory_eq_take _⟩
  rw [renderHistory_length]
  exact min_le_left _ _

/-- C7, at the failing input: the note `noteT` has the text `Tom &amp; Jerry`, which holds the
query `&amp;` (lower-cased or not), so by the claim the note stays visible.  Rendered, its
textarea holds `Tom & Jerry`, because the text goes into the template unescaped and the HTML
parser decodes the character reference; `filterNotes` tests the textarea value and hides the
note. -/
theorem filterNotes_hides_note_with_character_reference
    (textareaValue toLowerCase : String → String)
    (hparse : textareaValue "Tom &amp; Jerry" = "Tom & Jerry")
    (hlowText : toLowerCase "Tom &amp; Jerry" = "tom &amp; jerry")
    (hlowValue : toLowerCase "Tom & Jerry" = "tom & jerry")
    (hlowQuery : toLowerCase "&amp;" = "&amp;") :
    includes (toLowerCase noteT.text) (toLowerCase "&amp;") = true ∧
      (renderAllNotes textareaValue [noteT]).notes.map (fun e => (e.noteObj, e.value))
        = [(noteT, "Tom & Jerry")] ∧
      (filterNotes toLowerCase "&amp;"
          { notesData := [noteT], view := renderAllNotes textareaValue [noteT] }).view.notes.map
        (fun e => (e.noteObj, e.visible)) = [(noteT, false)] := by
  have hinText : includes "tom &amp; jerry" "&amp;" = true := by decide
  have hinValue : includes "tom & jerry" "&amp;" = false := by decide
  have htext : noteT.text = "Tom &amp; Jerry" := rfl
  refine ⟨?_, ?_, ?_⟩
  · rw [htext, hlowText, hlowQuery, hinText]
  · simp [renderAllNotes, renderNote, htext, hparse, noteT]
  · simp [renderAllNotes, renderNote, filterNotes, filterDisplay, NoteElem.visible, htext,
      hparse, hlowValue, hlowQuery, hinValue, noteT]

theorem filterNotes_hides_note_with_character_reference_witness :
    includes (asciiToLowerCase noteT.text) (asciiToLowerCase "&amp;") = true ∧
      (renderAllNotes ampTextareaValue [noteT]).notes.map (fun e => (e.noteObj, e.value))
        = [(noteT, "Tom & Jerry")] ∧
      (filterNotes asciiToLowerCase "&amp;"
          { notesData := [noteT],
            view := renderAllNotes ampTextareaValue [noteT] }).view.notes.map
        (fun e => (e.noteObj, e.visible)) = [(noteT, false)] :=
  filterNotes_hides_note_with_character_reference ampTextareaValue asciiToLowerCase
    (by decide) (by decide) (by decide) (by decide)

/-! ## Accounts and sessions: lemmas -/

theorem authBtnHandler_fail (s : AppState)
    (h : ∀ u, s.localUser = some u → ¬(s.emailInput = u.email ∧ s.passwordInput = u.password)) :
    authBtnHandler s = showError INVALID_LOGIN s := by
  unfold authBtnHandler
  cases hs : s.localUser with
  | none => rfl
  | some u =>
    have hu := h u hs
    by_cases he : s.emailInput = u.email
    · have hp : s.passwordInput ≠ u.password := fun hp => hu ⟨he, hp⟩
      simp [he, hp]
    · simp [he]

theorem runAuthBtnListeners_fail (n : Nat) (s : AppState)
    (h : ∀ u, s.localUser = some u → ¬(s.emailInput = u.email ∧ s.passwordInput = u.password)) :
    runAuthBtnListeners (n + 1) s = showError INVALID_LOGIN s := by
  induction n generalizing s with
  | zero => simp [runAuthBtnListeners, authBtnHandler_fail s h]
  | succ k ih =>
    rw [runAuthBtnListeners, authBtnHandler_fail s h, ih (showError INVALID_LOGIN s) h]
    rfl

theorem authBtnHandler_loggedIn (acc : Account) (s : AppState) (h : LoggedIn acc s) :
    LoggedIn acc (authBtnHandler s) := by
  obtain ⟨h1, h2, h3, h4⟩ := h
  simp only [authBtnHandler, h1]
  split
  · exact ⟨h1, h2, h3, h4⟩
  · exact ⟨rfl, rfl, rfl, rfl⟩

theorem runAuthBtnListeners_loggedIn (acc : Account) (n : Nat) (s : AppState)
    (h : LoggedIn acc s) : LoggedIn acc (runAuthBtnListeners n s) := by
  induction n generalizing s with
  | zero => exact h
  | succ k ih => exact ih (authBtnHandler s) (authBtnHandler_loggedIn acc s h)

theorem authBtnHandler_success (acc : Account) (s : AppState) (hs : s.localUser = some acc)
    (he : s.emailInput = acc.email) (hp : s.passwordInput = acc.password) :
    LoggedIn acc (authBtnHandler s) := by
  simp only [authBtnHandler, hs, he, hp, bne_self_eq_false, Bool.or_self]
  exact ⟨rfl, rfl, rfl, rfl⟩

theorem authBtnHandler_sessionInv (s : AppState) (h : SessionInv s) :
    SessionInv (authBtnHandler s) := by
  cases hs : s.localUser with
  | none =>
    simp only [authBtnHandler, hs]
    exact h
  | some u =>
    simp only [authBtnHandler, hs]
    split
    · exact h
    · intro _
      rfl

theorem runAuthBtnListeners_sessionInv (n : Nat) (s : AppState) (h : SessionInv s) :
    SessionInv (runAuthBtnListeners n s) := by
  induction n generalizing s with
  | zero => exact h
  | succ k ih => exact ih (authBtnHandler s) (authBtnHandler_sessionInv s h)

/-- Every action but a confirmed account deletion keeps the session invariant. -/
theorem accountStep_sessionInv (emailRegexTest : String → Bool) (s : AppState)
    (a : AccountAction) (ha : a ≠ .deleteAccount true) (h : SessionInv s) :
    SessionInv (accountStep emailRegexTest s a) := by
  cases a with
  | register formData =>
    simp only [accountStep, registrationSubmit]
    split
    · exact h
    · split
      · exact h
      · split
        · exact h
        · split
          · exact h
          · intro _
            rfl
  | login email password =>
    exact runAuthBtnListeners_sessionInv _ _ h
  | logout =>
    intro hflag
    rcases hflag with hflag | hflag
    · exact absurd hflag (by simp [accountStep, logoutBtnClick, setupLogin])
    · exact absurd hflag (by simp [accountStep, logoutBtnClick, setupLogin])
  | saveProfile n e p =>
    intro _
    rfl
  | deleteAccount confirmed =>
    cases confirmed with
    | true => exact absurd rfl ha
    | false => exact h

/-- What a click on `AuthBtn` does to the stores and the auth view, with at least one login
listener installed.  When an Account is
stored and the entered email and password equal the stored ones, the session entry and the
durable `activeUser` entry both hold the stored Account afterwards, the auth view is hidden
and the Account is kept.  In every other case (no Account, or a field that differs) the
invalid-login message is shown, the auth view keeps its display and no store entry changes. -/
theorem authBtnClick_spec (s : AppState) (hn : 0 < s.loginListeners) :
    (∀ storedUser, s.localUser = some storedUser → s.emailInput = storedUser.email →
        s.passwordInput = storedUser.password →
        (authBtnClick s).sessionUser = some storedUser ∧
          (authBtnClick s).localActiveUser = some storedUser ∧
          (authBtnClick s).loginPageDisplay = "none" ∧
          (authBtnClick s).localUser = some storedUser) ∧
      ((∀ storedUser, s.localUser = some storedUser →
          ¬(s.emailInput = storedUser.email ∧ s.passwordInput = storedUser.password)) →
        (authBtnClick s).errorText = INVALID_LOGIN ∧
          (authBtnClick s).errorDisplay = "block" ∧
          (authBtnClick s).loginPageDisplay = s.loginPageDisplay ∧
          (authBtnClick s).localUser = s.localUser ∧
          (authBtnClick s).localActiveUser = s.localActiveUser ∧
          (authBtnClick s).sessionUser = s.sessionUser) := by
  obtain ⟨n, hn1⟩ : ∃ n, s.loginListeners = n + 1 := ⟨s.loginListeners - 1, by omega⟩
  unfold authBtnClick
  rw [hn1]
  constructor
  · intro storedUser hs he hp
    have h := runAuthBtnListeners_loggedIn storedUser n _
      (authBtnHandler_success storedUser s hs he hp)
    exact ⟨h.2.1, h.2.2.1, h.2.2.2, h.1⟩
  · intro hfail
    rw [runAuthBtnListeners_fail n s hfail]
    exact ⟨rfl, rfl, rfl, rfl, rfl, rfl⟩

theorem authBtnClick_spec_sample :
    ((authBtnClick annLoggedOut).sessionUser = some annLee ∧
        (authBtnClick annLoggedOut).localActiveUser = some annLee ∧
        (authBtnClick annLoggedOut).loginPageDisplay = "none" ∧
        (authBtnClick annLoggedOut).localUser = some annLee) ∧
      ((authBtnClick { annLoggedOut with passwordInput := "secret124" }).errorText
          = INVALID_LOGIN ∧
        (authBtnClick { annLoggedOut with passwordInput := "secret124" }).errorDisplay
          = "block" ∧
        (authBtnClick { annLoggedOut with passwordInput := "secret124" }).loginPageDisplay
          = "flex" ∧
        (authBtnClick { annLoggedOut with passwordInput := "secret124" }).localUser
          = some annLee ∧
        (authBtnClick { annLoggedOut with passwordInput := "secret124" }).localActiveUser
          = none ∧
        (authBtnClick { annLoggedOut with passwordInput := "secret124" }).sessionUser
          = none) :=
  ⟨(authBtnClick_spec annLoggedOut (by decide)).1 annLee (by decide) (by decide) (by decide),
    (authBtnClick_spec { annLoggedOut with passwordInput := "secret124" } (by decide)).2
      (by decide)⟩

/-- With exactly one login listener a correct login shows no message: the error notification
is left as it was. -/
theorem authBtnClick_one_listener_success (s : AppState) (acc : Account)
    (hone : s.loginListeners = 1) (hs : s.localUser = some acc)
    (he : s.emailInput = acc.email) (hp : s.passwordInput = acc.password) :
    LoggedIn acc (authBtnClick s) ∧ (authBtnClick s).errorText = s.errorText ∧
      (authBtnClick s).errorDisplay = s.errorDisplay := by
  unfold authBtnClick
  rw [hone]
  simp only [runAuthBtnListeners, authBtnHandler, hs, he, hp, bne_self_eq_false, Bool.or_self]
  exact ⟨⟨rfl, rfl, rfl, rfl⟩, rfl, rfl⟩

theorem registrationSubmit_annForm (emailRegexTest : String → Bool)
    (hemail : emailRegexTest "ann@x.com" = true) :
    registrationSubmit emailRegexTest annForm emptyStores
      = { emptyStores with
          localUser := some annLee
          localActiveUser := some annLee
          sessionUser := some annLee
          passwordInput := ""
          loginPageDisplay := "none" } := by
  have h1 : ¬utf16Length annForm.fullName < 3 := by decide
  have h2 : ¬utf16Length annForm.password < 8 := by decide
  have h3 : (annForm.password != annForm.conformPassword) = false := by decide
  have h4 : emailRegexTest annForm.email = true := hemail
  simp only [registrationSubmit, h1, h2, h3, h4, if_false, Bool.not_true]
  rfl

/-! ## Accounts and sessions: the claims -/

/-- C9, at the failing input: register Ann Lee, log out, log in, log out, log in, each login
with her email and password.  The first login runs one listener: the session is set, the auth
view hidden and no message shown.  Each logout installs one more listener on `AuthBtn`, so the
second login runs two: the first sets the session and empties the fields, the second compares
the empty fields and shows the invalid-login message, although the login succeeded. -/
theorem authBtnClick_second_login_shows_error (emailRegexTest : String → Bool)
    (hemail : emailRegexTest "ann@x.com" = true) :
    (LoggedIn annLee (accountRun emailRegexTest emptyStores
          [.register annForm, .logout, .login "ann@x.com" "secret123"]) ∧
        (accountRun emailRegexTest emptyStores
          [.register annForm, .logout, .login "ann@x.com" "secret123"]).errorText = "" ∧
        (accountRun emailRegexTest emptyStores
          [.register annForm, .logout, .login "ann@x.com" "secret123"]).errorDisplay = "") ∧
      (accountRun emailRegexTest emptyStores
          [.register annForm, .logout, .login "ann@x.com" "secret123", .logout,
            .login "ann@x.com" "secret123"]).loginListeners = 2 ∧
      LoggedIn annLee (accountRun emailRegexTest emptyStores
          [.register annForm, .logout, .login "ann@x.com" "secret123", .logout,
            .login "ann@x.com" "secret123"]) ∧
      (accountRun emailRegexTest emptyStores
          [.register annForm, .logout, .login "ann@x.com" "secret123", .logout,
            .login "ann@x.com" "secret123"]).errorText = INVALID_LOGIN ∧
      (accountRun emailRegexTest emptyStores
          [.register annForm, .logout, .login "ann@x.com" "secret123", .logout,
            .login "ann@x.com" "secret123"]).errorDisplay = "block" := by
  simp only [accountRun, List.foldl, accountStep, registrationSubmit_annForm emailRegexTest hemail]
  refine ⟨⟨⟨?_, ?_, ?_, ?_⟩, ?_, ?_⟩, ?_, ⟨?_, ?_, ?_, ?_⟩, ?_, ?_⟩ <;> decide

theorem authBtnClick_second_login_shows_error_witness :
    (accountRun simpleEmailTest emptyStores
          [.register annForm, .logout, .login "ann@x.com" "secret123"]).errorText = "" ∧
      LoggedIn annLee (accountRun simpleEmailTest emptyStores
          [.register annForm, .logout, .login "ann@x.com" "secret123", .logout,
            .login "ann@x.com" "secret123"]) ∧
      (accountRun simpleEmailTest emptyStores
          [.register annForm, .logout, .login "ann@x.com" "secret123", .logout,
            .login "ann@x.com" "secret123"]).errorText = INVALID_LOGIN :=
  ⟨(authBtnClick_second_login_shows_error simpleEmailTest (by decide)).1.2.1,
    (authBtnClick_second_login_shows_error simpleEmailTest (by decide)).2.2.1,
    (authBtnClick_second_login_shows_error simpleEmailTest (by decide)).2.2.2.1⟩


/-- C10, at the failing input: from empty stores, registering Ann Lee and then deleting the
account (confirmed) leaves both session flags holding her Account while no Account is stored;
the session invariant held before the deletion and does not hold after it. -/
theorem deleteAccount_leaves_session_flags (emailRegexTest : String → Bool)
    (hemail : emailRegexTest "ann@x.com" = true) :
    SessionInv (accountRun emailRegexTest emptyStores [.register annForm]) ∧
      (accountRun emailRegexTest emptyStores
        [.register annForm, .deleteAccount true]).localUser = none ∧
      (accountRun emailRegexTest emptyStores
        [.register annForm, .deleteAccount true]).localActiveUser = some annLee ∧
      (accountRun emailRegexTest emptyStores
        [.register annForm, .deleteAccount true]).sessionUser = some annLee ∧
      ¬SessionInv (accountRun emailRegexTest emptyStores
        [.register annForm, .deleteAccount true]) := by
  have h1 : ¬utf16Length annForm.fullName < 3 := by decide
  have h2 : ¬utf16Length annForm.password < 8 := by decide
  have h3 : (annForm.password != annForm.conformPassword) = false := by decide
  have h4 : emailRegexTest annForm.email = true := hemail
  have hreg : registrationSubmit emailRegexTest annForm emptyStores
      = { emptyStores with
          localUser := some annLee
          localActiveUser := some annLee
          sessionUser := some annLee
          passwordInput := ""
          loginPageDisplay := "none" } := by
    simp only [registrationSubmit, h1, h2, h3, h4, if_false, Bool.not_true]
    rfl
  have hrun1 : accountRun emailRegexTest emptyStores [.register annForm]
      = registrationSubmit emailRegexTest annForm emptyStores := rfl
  have hrun2 : accountRun emailRegexTest emptyStores [.register annForm, .deleteAccount true]
      = pageLoad none (some annLee) (some annLee) [] := by
    show deleteAccountBtnClick true (registrationSubmit emailRegexTest annForm emptyStores) = _
    rw [hreg]
    rfl
  rw [hrun1, hrun2, hreg]
  refine ⟨fun _ => rfl, rfl, rfl, rfl, ?_⟩
  intro hinv
  exact absurd (hinv (Or.inl rfl)) (by decide)

theorem deleteAccount_leaves_session_flags_witness :
    SessionInv (accountRun simpleEmailTest emptyStores [.register annForm]) ∧
      (accountRun simpleEmailTest emptyStores
        [.register annForm, .deleteAccount true]).localUser = none ∧
      (accountRun simpleEmailTest emptyStores
        [.register annForm, .deleteAccount true]).localActiveUser = some annLee ∧
      (accountRun simpleEmailTest emptyStores
        [.register annForm, .deleteAccount true]).sessionUser = some annLee ∧
      ¬SessionInv (accountRun simpleEmailTest emptyStores
        [.register annForm, .deleteAccount true]) :=
  deleteAccount_leaves_session_flags simpleEmailTest (by decide)

end Docket
